import Mathlib

/-!
Verification of the Temu price-adjustment bot (`main.py`, `utils.py`,
`scheduler.py`) against its natural-language specification.

The Python sources are shallowly embedded below: pure helpers become Lean
functions over `List Char` / `String`; the stateful order-processing loop
becomes a step function over an explicit environment of per-attempt
outcomes; Python `datetime` values are modelled either as calendar records
or as integer positions on the microsecond timeline, whichever the
compared operations require; Python dicts become association lists with
first-occurrence update semantics.
-/

/-! ## Generic character and string helpers (ASCII, as used by the bot) -/

/-- The regex character class `[A-Z]`. -/
def isUpperL (c : Char) : Bool := 'A' ≤ c && c ≤ 'Z'

/-- The regex character class `[a-z]`. -/
def isLowerL (c : Char) : Bool := 'a' ≤ c && c ≤ 'z'

/-- The regex character class `\d` (ASCII digits, the only digits the bot
ever extracts). -/
def isDigitB (c : Char) : Bool := '0' ≤ c && c ≤ '9'

/-- Models Python `str.lower` on a single character (ASCII range; all
keyword patterns in the source are already lowercase). -/
def lowerChar (c : Char) : Char :=
  if isUpperL c then Char.ofNat (c.toNat + 32) else c

/-- Models Python `str.lower`. -/
def lowerStr (s : String) : String := ⟨s.data.map lowerChar⟩

/-- Whether `needle` occurs at the head of `hay`. -/
def substrAt : List Char → List Char → Bool
  | [], _ => true
  | _ :: _, [] => false
  | a :: as, b :: bs => a == b && substrAt as bs

/-- Models the Python `needle in hay` substring test. -/
def containsSub (needle : List Char) : List Char → Bool
  | [] => substrAt needle []
  | c :: rest => substrAt needle (c :: rest) || containsSub needle rest

/-- Models `needle in hay` on `String`s. -/
def containsStr (needle hay : String) : Bool := containsSub needle.data hay.data

/-- If `sep` occurs at the head of `l`, return the remainder after it. -/
def dropSepQ : List Char → List Char → Option (List Char)
  | [], l => some l
  | _ :: _, [] => none
  | s :: ss, c :: cs => if s == c then dropSepQ ss cs else none

/-- Fuelled worker for `splitOnL`; the fuel is always at least the length
of the list being split, so the fuel-exhausted branch is unreachable. -/
def splitOnFuel (sep : List Char) : Nat → List Char → List (List Char)
  | _, [] => [[]]
  | 0, l => [l]
  | fuel + 1, c :: rest =>
    match dropSepQ sep (c :: rest) with
    | some rem => [] :: splitOnFuel sep fuel rem
    | none =>
      match splitOnFuel sep fuel rest with
      | [] => [[c]]
      | g :: gs => (c :: g) :: gs

/-- Models Python `str.split(sep)` for a non-empty separator. -/
def splitOnL (sep l : List Char) : List (List Char) :=
  splitOnFuel sep (l.length + 1) l

/-- Numeric value of a non-empty all-digit character list. -/
def digitsVal? (l : List Char) : Option Nat :=
  if l ≠ [] && l.all isDigitB then
    some (l.foldl (fun acc c => acc * 10 + (c.toNat - '0'.toNat)) 0)
  else none

/-! ## Dialog classifier (`TemuBot.check_dialog_type`, main.py:827-904)

The dialog text is lowercased and then searched against an ordered list of
failure regexes, then success regexes; as a fallback, at least 2 of 3
known error-dialog CSS class markers also classify as failure.  Each
source regex is either a literal string or has a single optional comma
(`sorry,? you cannot request`), so an indicator is modelled as the list of
its literal alternatives. -/

/-- The `failure_indicators` regex list, each regex expanded into its
finitely many literal alternatives. -/
def failure_indicators : List (List String) :=
  [["sorry you cannot request", "sorry, you cannot request"],
   ["not eligible for price adjustment"],
   ["exact same specifications"],
   ["same seller"],
   ["desculpe você não pode solicitar", "desculpe, você não pode solicitar"],
   ["não é elegível para ajuste"],
   ["mesmas especificações"],
   ["mesmo vendedor"],
   ["items that are sold out"],
   ["discontinued"],
   ["out of stock"],
   ["no longer available"],
   ["refunded"],
   ["refund/return"]]

/-- The `success_indicators` regex list (all literal). -/
def success_indicators : List (List String) :=
  [["request a price adjustment"],
   ["select refund method"],
   ["price adjustment"],
   ["refund amount"],
   ["reembolso"],
   ["ajuste de preço"],
   ["solicitar ajuste"],
   ["selecionar método"]]

/-- Whether one indicator (a set of literal alternatives standing for one
source regex) matches the lowercased dialog text. -/
def matchesIndicator (t : String) (alts : List String) : Bool :=
  alts.any (fun a => containsStr a t)

/-- Models `TemuBot.check_dialog_type`.  `dialogText` is the raw text of
the located dialog; `c1 c2 c3` record whether each of the three
error-dialog class markers (`_39vL3TE4`, `_10EiyDKr`, `_2OaJDN8Y`) is
present in the page. -/
def check_dialog_type (dialogText : String) (c1 c2 c3 : Bool) : String :=
  let t := lowerStr dialogText
  if failure_indicators.any (matchesIndicator t) then "failure"
  else if success_indicators.any (matchesIndicator t) then "success"
  else if ((if c1 then 1 else 0) + (if c2 then 1 else 0) + (if c3 then 1 else 0) : Nat) ≥ 2
    then "failure"
  else "unknown"

/-! ## Order date parsing (`parse_order_date`, main.py:1333-1371)

`parse_order_date` searches the input against five regex patterns in
order; on a match the comma-stripped matched text is fed to four
`strptime` formats in order (`%b %d %Y`, `%d %b %Y`, `%d/%m/%Y`,
`%m/%d/%Y`); if all formats fail the next pattern is tried.  After the
pattern loop, an embedded `Order time:` label is stripped and the parse
re-run on the remainder.  Each regex is implemented as a backtracking
matcher with Python's leftmost-match, greedy-quantifier semantics. -/

/-- A calendar date, modelling the date part of a Python `datetime` (the
time part produced by `strptime` on these formats is always midnight). -/
structure PDate where
  year : Nat
  month : Nat
  day : Nat
deriving DecidableEq, Repr

/-- Gregorian leap-year test, as used by Python's `datetime` validation. -/
def isLeap (y : Nat) : Bool := y % 4 == 0 && (y % 100 != 0 || y % 400 == 0)

/-- Number of days in a month, as enforced by `datetime`'s constructor. -/
def daysInMonth (y m : Nat) : Nat :=
  if m == 2 then (if isLeap y then 29 else 28)
  else if m == 4 || m == 6 || m == 9 || m == 11 then 30
  else 31

/-- Models construction of a `datetime` date: year in `MINYEAR..MAXYEAR`,
month `1..12`, day within the month, else `ValueError`. -/
def mkDate (y m d : Nat) : Option PDate :=
  if 1 ≤ y && y ≤ 9999 && 1 ≤ m && m ≤ 12 && 1 ≤ d && d ≤ daysInMonth y m then
    some ⟨y, m, d⟩
  else none

/-- The lowercased month abbreviations recognised by `strptime`'s `%b`. -/
def month_abbrs : List String :=
  ["jan", "feb", "mar", "apr", "may", "jun",
   "jul", "aug", "sep", "oct", "nov", "dec"]

/-- `%b`: case-insensitive abbreviated month name, yielding 1..12. -/
def monthTok (t : List Char) : Option Nat :=
  match (month_abbrs.indexOf? (lowerStr ⟨t⟩) : Option (Fin 12)) with
  | some i => some (i.val + 1)
  | none => none

/-- `%d`: one or two digits with value 1..31 (calendar validation happens
in `mkDate`). -/
def dayTok (t : List Char) : Option Nat :=
  if t.length ≤ 2 then
    match digitsVal? t with
    | some v => if 1 ≤ v && v ≤ 31 then some v else none
    | none => none
  else none

/-- `%m`: one or two digits with value 1..12. -/
def monthNumTok (t : List Char) : Option Nat :=
  if t.length ≤ 2 then
    match digitsVal? t with
    | some v => if 1 ≤ v && v ≤ 12 then some v else none
    | none => none
  else none

/-- `%Y`: up to four digits (range validation happens in `mkDate`). -/
def yearTok (t : List Char) : Option Nat :=
  if t.length ≤ 4 then digitsVal? t else none

/-- Models `datetime.strptime(s, "%b %d %Y")`. -/
def strptime_b_d_Y (s : List Char) : Option PDate :=
  match splitOnL [' '] s with
  | [mt, dt, yt] => do
    let m ← monthTok mt
    let d ← dayTok dt
    let y ← yearTok yt
    mkDate y m d
  | _ => none

/-- Models `datetime.strptime(s, "%d %b %Y")`. -/
def strptime_d_b_Y (s : List Char) : Option PDate :=
  match splitOnL [' '] s with
  | [dt, mt, yt] => do
    let d ← dayTok dt
    let m ← monthTok mt
    let y ← yearTok yt
    mkDate y m d
  | _ => none

/-- Models `datetime.strptime(s, "%d/%m/%Y")`. -/
def strptime_d_m_Y (s : List Char) : Option PDate :=
  match splitOnL ['/'] s with
  | [dt, mt, yt] => do
    let d ← dayTok dt
    let m ← monthNumTok mt
    let y ← yearTok yt
    mkDate y m d
  | _ => none

/-- Models `datetime.strptime(s, "%m/%d/%Y")`. -/
def strptime_m_d_Y (s : List Char) : Option PDate :=
  match splitOnL ['/'] s with
  | [mt, dt, yt] => do
    let m ← monthNumTok mt
    let d ← dayTok dt
    let y ← yearTok yt
    mkDate y m d
  | _ => none

/-- The four `strptime` formats tried in source order on a matched date
part. -/
def tryFormats (s : List Char) : Option PDate :=
  strptime_b_d_Y s <|> strptime_d_b_Y s <|> strptime_d_m_Y s <|> strptime_m_d_Y s

/-- Matches exactly four `\d` characters, returning them. -/
def mFourDigits : List Char → Option (List Char)
  | a :: b :: c :: d :: _ =>
    if isDigitB a && isDigitB b && isDigitB c && isDigitB d then some [a, b, c, d]
    else none
  | _ => none

/-- Greedy `\d{1,2}` followed by continuation `k`: two digits are
preferred, backtracking to one. -/
def mDigits12Then (k : List Char → Option (List Char)) (l : List Char) :
    Option (List Char) :=
  match l with
  | d1 :: rest =>
    if isDigitB d1 then
      (match rest with
       | d2 :: r2 =>
         if isDigitB d2 then (k r2).map (fun m => d1 :: d2 :: m) else none
       | [] => none)
      <|> (k rest).map (fun m => d1 :: m)
    else none
  | [] => none

/-- A literal single character followed by continuation `k`. -/
def mLit (ch : Char) (k : List Char → Option (List Char)) :
    List Char → Option (List Char)
  | c :: rest => if c == ch then (k rest).map (fun m => c :: m) else none
  | [] => none

/-- Greedy `,? \d{4}` (optional comma preferred present, then a literal
space and four digits). -/
def mCommaTail (l : List Char) : Option (List Char) :=
  (match l with
   | ',' :: ' ' :: r => (mFourDigits r).map (fun ds => ',' :: ' ' :: ds)
   | _ => none)
  <|>
  (match l with
   | ' ' :: r => (mFourDigits r).map (fun ds => ' ' :: ds)
   | _ => none)

/-- Regex `[A-Z][a-z]{2} \d{1,2},? \d{4}` anchored at the head. -/
def pat1At : List Char → Option (List Char)
  | c0 :: c1 :: c2 :: ' ' :: rest =>
    if isUpperL c0 && isLowerL c1 && isLowerL c2 then
      (mDigits12Then mCommaTail rest).map (fun m => c0 :: c1 :: c2 :: ' ' :: m)
    else none
  | _ => none

/-- Regex tail ` [A-Z][a-z]{2} \d{4}` anchored at the head. -/
def mMonthYearTail : List Char → Option (List Char)
  | ' ' :: c0 :: c1 :: c2 :: ' ' :: r =>
    if isUpperL c0 && isLowerL c1 && isLowerL c2 then
      (mFourDigits r).map (fun ds => ' ' :: c0 :: c1 :: c2 :: ' ' :: ds)
    else none
  | _ => none

/-- Regex `\d{1,2} [A-Z][a-z]{2} \d{4}` anchored at the head. -/
def pat2At : List Char → Option (List Char) :=
  mDigits12Then mMonthYearTail

/-- Regex `[A-Z][a-z]{2} \d{1,2}` anchored at the head. -/
def pat3At : List Char → Option (List Char)
  | c0 :: c1 :: c2 :: ' ' :: d1 :: rest =>
    if isUpperL c0 && isLowerL c1 && isLowerL c2 && isDigitB d1 then
      match rest with
      | d2 :: _ =>
        if isDigitB d2 then some [c0, c1, c2, ' ', d1, d2]
        else some [c0, c1, c2, ' ', d1]
      | [] => some [c0, c1, c2, ' ', d1]
    else none
  | _ => none

/-- Regex `\d{1,2}/\d{1,2}/\d{4}` anchored at the head. -/
def pat4At : List Char → Option (List Char) :=
  mDigits12Then (mLit '/' (mDigits12Then (mLit '/' mFourDigits)))

/-- Regex `\d{1,2}-\d{1,2}-\d{4}` anchored at the head. -/
def pat5At : List Char → Option (List Char) :=
  mDigits12Then (mLit '-' (mDigits12Then (mLit '-' mFourDigits)))

/-- Models `re.search`: try the anchored matcher at each position from the
left, returning the first (leftmost) match. -/
def reSearch (mA : List Char → Option (List Char)) : List Char → Option (List Char)
  | [] => mA []
  | c :: rest => mA (c :: rest) <|> reSearch mA rest

/-- The ordered `patterns` list of `parse_order_date`. -/
def order_date_patterns : List (List Char → Option (List Char)) :=
  [pat1At, pat2At, pat3At, pat4At, pat5At]

/-- Models `match.group(1).replace(',', '')` (the only separator removed
is the comma). -/
def stripCommas (l : List Char) : List Char := l.filter (fun c => c != ',')

/-- The pattern loop of `parse_order_date`: search each pattern in turn;
on a match try the four formats; if they all fail, continue with the next
pattern. -/
def patLoop : List (List Char → Option (List Char)) → List Char → Option PDate
  | [], _ => none
  | p :: ps, s =>
    match reSearch p s with
    | some m =>
      match tryFormats (stripCommas m) with
      | some d => some d
      | none => patLoop ps s
    | none => patLoop ps s

/-- Fuelled worker for `parse_order_date`; the recursive call happens on
the text after an `Order time:` label, which is strictly shorter, so fuel
`length + 1` always suffices. -/
def parse_order_date_fuel : Nat → List Char → Option PDate
  | 0, _ => none
  | fuel + 1, s =>
    match patLoop order_date_patterns s with
    | some d => some d
    | none =>
      if containsSub "Order time:".data s then
        match splitOnL "Order time:".data s with
        | _ :: p1 :: _ => parse_order_date_fuel fuel p1
        | _ => none
      else none

/-- Models `parse_order_date` (main.py:1333-1371). -/
def parse_order_date (s : String) : Option PDate :=
  parse_order_date_fuel (s.data.length + 1) s.data

/-! ## Order date validation (`validate_order_date`, main.py:1374-1380)

Python `datetime` values form a linear order isomorphic to their position
on the microsecond timeline, and `timedelta(days=30)` is an exact shift of
`30 * 86400 * 10^6` microseconds, so here datetimes are modelled as `Int`
microsecond positions. -/

/-- Microseconds in one day. -/
def microsPerDay : Int := 86400000000

/-- Models `validate_order_date` (main.py:1374-1380): `None` is never
valid; otherwise the order date must be `>= now - timedelta(days=30)`.
`now` is the value of `datetime.now()` at the call. -/
def validate_order_date (now : Int) : Option Int → Bool
  | none => false
  | some d => decide (now - 30 * microsPerDay ≤ d)

/-! ## Order record store (`save_order_data`, main.py:1383-1426 and
utils.py:121-158)

Both copies implement the same upsert: load the JSON array, find the
first record with the same `id`, `dict.update` it in place if found, else
append, and write back.  A JSON record is modelled as its `id` plus an
association list of the remaining fields; `dict.update` keeps existing
keys in place (overwriting their values) and appends new keys. -/

/-- A stored order record: the `id` field plus the remaining JSON fields. -/
structure JRec where
  id : String
  fields : List (String × String)
deriving DecidableEq, Repr

/-- One entry of `old` after Python `old.update(new)`: its value is
overwritten when `new` carries the same key. -/
def updEntry (new : List (String × String)) (kv : String × String) :
    String × String :=
  match new.find? (fun q => q.1 == kv.1) with
  | some q => (kv.1, q.2)
  | none => kv

/-- Models Python `old.update(new)` on dicts: keys already in `old` keep
their position with the value from `new` when present, and keys only in
`new` are appended in their order. -/
def dictUpdate (old new : List (String × String)) : List (String × String) :=
  old.map (updEntry new)
  ++ new.filter (fun q => !(old.any (fun kv => kv.1 == q.1)))

/-- The in-place `existing.update(order)` on the first record whose id
matches. -/
def updateFirst : List JRec → JRec → List JRec
  | [], _ => []
  | o :: rest, order =>
    if o.id == order.id then
      { id := o.id, fields := dictUpdate o.fields order.fields } :: rest
    else o :: updateFirst rest order

/-- Models the upsert of `save_order_data`: update the first existing
record with the same id, else append the new record. -/
def save_order_data (orders : List JRec) (order : JRec) : List JRec :=
  if orders.any (fun o => o.id == order.id) then updateFirst orders order
  else orders ++ [order]

/-- Number of records in the store carrying a given id. -/
def countId (orders : List JRec) (i : String) : Nat :=
  (orders.filter (fun o => o.id == i)).length

/-- Value at a key in a field association list (Python `d[k]` / `d.get(k)`
semantics: the unique — here, first — entry with that key). -/
def valAt (l : List (String × String)) (k : String) : Option String :=
  (l.find? (fun q => q.1 == k)).map (fun q => q.2)

/-- Value of a field of a record, via the first matching key. -/
def getField (r : JRec) (k : String) : Option String := valAt r.fields k

/-! ## Scheduler (`Scheduler`, main.py:88-152)

`SchedulerState` is the JSON object `{"hours": .., "timestamps": ..}`; the
`hours` dict (string hour keys to counts) is an association list with
unique keys and insertion order, `timestamps` the list of ISO strings.
Calendar datetimes are modelled by a day index plus time-of-day fields,
which is what `datetime.replace` and day-granularity `timedelta`
arithmetic need. -/

/-- A naive Python `datetime`: a calendar day index and time of day. -/
structure DT where
  day : Int
  hour : Nat
  minute : Nat
  second : Nat
  micro : Nat
deriving DecidableEq, Repr

/-- Microsecond timeline position of a `DT`. -/
def DT.toMicros (t : DT) : Int :=
  t.day * microsPerDay +
    (((t.hour * 60 + t.minute) * 60 + t.second) * 1000000 + t.micro : Nat)

/-- The `DT` at a given microsecond timeline position. -/
def DT.ofMicros (x : Int) : DT :=
  let d := Int.ediv x microsPerDay
  let r := (Int.emod x microsPerDay).toNat
  { day := d
    hour := r / 3600000000
    minute := r % 3600000000 / 60000000
    second := r % 60000000 / 1000000
    micro := r % 1000000 }

/-- Models `t + timedelta(minutes=w)`. -/
def DT.addMinutes (t : DT) (w : Int) : DT :=
  DT.ofMicros (t.toMicros + w * 60000000)

/-- Models `timestamp.isoformat()`: an injective textual rendering of the
datetime. -/
def DT.isoString (t : DT) : String :=
  toString t.day ++ "T" ++ toString t.hour ++ ":" ++ toString t.minute ++
    ":" ++ toString t.second ++ "." ++ toString t.micro

/-- The scheduler's persisted state (`scheduler_state.json`). -/
structure SchedState where
  hours : List (String × Nat)
  timestamps : List String
deriving DecidableEq, Repr

/-- Models `hours[key] = hours.get(key, 0) + 1` on the dict: increment the
(unique) existing entry in place, or append a fresh entry with count 1. -/
def bumpHour : List (String × Nat) → String → List (String × Nat)
  | [], k => [(k, 1)]
  | (k', v) :: rest, k =>
    if k' == k then (k', v + 1) :: rest else (k', v) :: bumpHour rest k

/-- Models `Scheduler.update_success` (main.py:111-117): bump the bucket
of the timestamp's hour and append the ISO timestamp.  (The `save_state`
disk write is I/O and not part of the state transition.) -/
def update_success (s : SchedState) (t : DT) : SchedState :=
  { hours := bumpHour s.hours (toString t.hour)
    timestamps := s.timestamps ++ [t.isoString] }

/-- Total number of successes recorded in the hour histogram. -/
def sumHours (hs : List (String × Nat)) : Nat := (hs.map (fun p => p.2)).sum

/-- Models `max(hours.items(), key=lambda x: x[1])` — the first entry with
the maximal count, in dict insertion order. -/
def argmaxCount : List (String × Nat) → Option (String × Nat)
  | [] => none
  | p :: rest =>
    match argmaxCount rest with
    | none => some p
    | some q => some (if q.2 > p.2 then q else p)

/-- Models `int(...)` on an hour key produced by `str(hour)`. -/
def natOfKey (s : String) : Nat := (digitsVal? s.data).getD 0

/-- Models `Scheduler.get_next_run_time` (main.py:119-152).  The random
draw `random.randint(9, 17)` is passed in as `defaultHour`; the sklearn
regression of the non-empty branch is external ML code, so its outcome
`round(model.predict(..) % 24)` is passed in as `predictedRaw` (`none`
when fitting or prediction raises, triggering the histogram fallback); the
jitter `random.randint(-30, 30)` is passed in as `jitter`. -/
def get_next_run_time (state : SchedState) (now : DT) (defaultHour : Nat)
    (predictedRaw : Option Int) (jitter : Int) : DT :=
  if state.timestamps.isEmpty then
    { day := now.day + 1, hour := defaultHour, minute := 0, second := 0,
      micro := now.micro }
  else
    let predicted_hour : Nat :=
      match predictedRaw with
      | some p => (max 9 (min 21 p)).toNat
      | none =>
        match argmaxCount state.hours with
        | some q => natOfKey q.1
        | none => 0
    let next_run :=
      DT.addMinutes { now with hour := predicted_hour, minute := 0, second := 0 }
        jitter
    if next_run.toMicros < now.toMicros then DT.addMinutes next_run (24 * 60)
    else next_run

/-! ## Order batch selection (`TemuBot.process_orders`, main.py:685-724)

After enumeration, the valid orders are filtered and only the first
`min(10, len(valid_orders))` of them are processed in a run. -/

/-- The fields of an enumerated order summary used by the batch loop. -/
structure OSum where
  id : String
  date_str : String
  item_count : String
  valid : Bool
deriving DecidableEq, Repr

/-- Models the selection step of `process_orders`: `valid_orders =
[o for o in orders if o['valid']]; orders_to_process =
valid_orders[:min(10, len(valid_orders))]`. -/
def process_orders_selection (orders : List OSum) : List OSum :=
  let valid_orders := orders.filter (fun o => o.valid)
  let max_orders := min 10 valid_orders.length
  valid_orders.take max_orders

/-! ## Order processing state machine (`TemuBot.process_order`,
main.py:732-810)

The loop runs `while attempts < 5 and result is None`.  Each iteration
increments `attempts`, then interacts with the page; the page/driver
behaviour of attempt `i` is provided by an environment `env : Nat → AOut`.
The possible behaviours of one attempt, read off the source:

* `get_order_details_page` catches its own exceptions and returns a
  boolean; `False` hits the bare `continue` (nothing else happens);
* `get_tracking_info` can raise (track button missing, tracking panel
  timeout), which lands in the `except` arm *before* the per-attempt field
  resets;
* otherwise the adjustment fields are reset, `attempt_price_adjustment`
  returns `True`/`False`/`None` (it catches its own exceptions);
* on `True`, `scheduler.update_success` runs *before* the success fields
  are written and can raise (state-file write);
* the record is then persisted by `save_order_data` (which swallows its
  own errors) and `save_order_to_txt`, which can raise *after* the record
  was already persisted;
* `navigate_to_orders_page` swallows its own errors.

The `except` arm sets `last_error` and `adjustment_status = 'failed'` and
does not persist. -/

/-- The tri-state outcome of `attempt_price_adjustment`. -/
inductive AdjResult
  | success
  | notAvailable
  | indeterminate
deriving DecidableEq, Repr

/-- Environment behaviour of one processing attempt.  `updateExc` is a
raised exception in `scheduler.update_success` (only reachable on a
successful adjustment); `txtExc` is a raised exception in
`save_order_to_txt`. -/
inductive AOut
  | noDetails
  | excTracking (msg : String)
  | adjSuccess (updateExc txtExc : Option String)
  | adjNotAvailable (txtExc : Option String)
  | adjIndeterminate (txtExc : Option String)
deriving DecidableEq, Repr

/-- Whether the attempt outcome is an adjustment confirmed successful
(with `update_success` not raising, so that `result = True` is reached). -/
def AOut.isCleanSuccess : AOut → Bool
  | .adjSuccess none _ => true
  | _ => false

/-- The in-memory order record fields touched by `process_order`.  Fields
are `Option`-valued because the enumerated order dict does not carry the
adjustment keys until an attempt first writes them. -/
structure ORec where
  id : String
  attempts : Nat
  adjustment_attempted : Option Bool
  adjustment_success : Option Bool
  adjustment_status : Option String
  last_error : Option String
deriving DecidableEq, Repr

/-- The per-attempt field resets executed after tracking extraction. -/
def resetFields (r : ORec) : ORec :=
  { r with adjustment_attempted := some false, adjustment_success := some false,
           adjustment_status := some "not_attempted", last_error := some "" }

/-- The `except` arm of the attempt loop: record the error and mark the
status failed. -/
def applyExc (r : ORec) (msg : String) : ORec :=
  { r with last_error := some msg, adjustment_status := some "failed" }

/-- Result of one loop iteration: the mutated record, the records
persisted by `save_order_data` during the iteration, and the value of the
`result` variable after it (`none` keeps the loop going). -/
structure StepRes where
  record : ORec
  persisted : List ORec
  result : Option Bool
deriving DecidableEq, Repr

/-- One iteration of the attempt loop body (after the `attempts`
increment), driven by the environment outcome for this attempt. -/
def stepAttempt : AOut → ORec → StepRes
  | .noDetails, r => ⟨r, [], none⟩
  | .excTracking m, r => ⟨applyExc r m, [], none⟩
  | .adjSuccess uExc tExc, r =>
    let r1 := resetFields r
    match uExc with
    | some m => ⟨applyExc r1 m, [], none⟩
    | none =>
      let r2 := { r1 with adjustment_status := some "success",
                          adjustment_success := some true,
                          adjustment_attempted := some true }
      match tExc with
      | some m => ⟨applyExc r2 m, [r2], some true⟩
      | none => ⟨r2, [r2], some true⟩
  | .adjNotAvailable tExc, r =>
    let r1 := { resetFields r with adjustment_status := some "not_available",
                                   adjustment_attempted := some true }
    match tExc with
    | some m => ⟨applyExc r1 m, [r1], some false⟩
    | none => ⟨r1, [r1], some false⟩
  | .adjIndeterminate tExc, r =>
    let r1 := { resetFields r with adjustment_status := some "failed",
                                   last_error := some "Price adjustment failed",
                                   adjustment_attempted := some true }
    match tExc with
    | some m => ⟨applyExc r1 m, [r1], none⟩
    | none => ⟨r1, [r1], none⟩

/-- Result of `process_order`: the final record, every record persisted
along the way, and the boolean returned to `process_orders`. -/
structure PORes where
  record : ORec
  persisted : List ORec
  returned : Bool
deriving DecidableEq, Repr

/-- The `while attempts < 5 and result is None` loop, with `k` the number
of attempts still allowed. -/
def poLoop (env : Nat → AOut) : Nat → ORec → List ORec → StepRes
  | 0, r, ps => ⟨r, ps, none⟩
  | k + 1, r, ps =>
    let r1 := { r with attempts := r.attempts + 1 }
    let s := stepAttempt (env r1.attempts) r1
    match s.result with
    | some b => ⟨s.record, ps ++ s.persisted, some b⟩
    | none => poLoop env k s.record (ps ++ s.persisted)

/-- Models `TemuBot.process_order` (main.py:732-810): reset `attempts` to
0, run up to 5 attempts stopping at the first decisive result, and return
`result is True`. -/
def process_order (r : ORec) (env : Nat → AOut) : PORes :=
  let s := poLoop env 5 { r with attempts := 0 } []
  ⟨s.record, s.persisted, s.result == some true⟩

/-- A freshly enumerated order record: no adjustment keys present yet. -/
def freshORec (i : String) : ORec :=
  { id := i, attempts := 0, adjustment_attempted := none,
    adjustment_success := none, adjustment_status := none, last_error := none }

/-! ## Theorems -/

/-- Helper: `bumpHour` adds exactly one to the histogram total. -/
lemma sumHours_bumpHour (hs : List (String × Nat)) (k : String) :
    sumHours (bumpHour hs k) = sumHours hs + 1 := by
  induction hs with
  | nil => simp [bumpHour, sumHours]
  | cons p rest ih =>
    obtain ⟨k', v⟩ := p
    by_cases h : k' == k
    · simp [bumpHour, h, sumHours]
      omega
    · simp only [bumpHour, h, if_neg]
      simp [sumHours] at ih ⊢
      omega

/-- C4: `validate_order_date(d)` is true iff `d >= now - 30 days`;
a date exactly 30 days before now is valid, one 31 days before is not,
and an absent date (`None`) is never valid. -/
theorem C4_validate_order_date_iff (now d : Int) :
    (validate_order_date now (some d) = true ↔ now - 30 * microsPerDay ≤ d) ∧
    validate_order_date now none = false ∧
    validate_order_date now (some (now - 30 * microsPerDay)) = true ∧
    validate_order_date now (some (now - 31 * microsPerDay)) = false := by
  refine ⟨by simp [validate_order_date], rfl, ?_, ?_⟩
  · simp [validate_order_date, microsPerDay]
  · simp [validate_order_date, microsPerDay]
    omega

/-- C8: with empty scheduler state, `get_next_run_time` returns the next
day at the drawn default hour (minute and second zeroed, microsecond kept
from `now`), and since `random.randint(9, 17)` draws from `[9, 17]`, the
returned hour lies in `[9, 17]`. -/
theorem C8_next_run_time_empty_state (state : SchedState) (now : DT)
    (dh : Nat) (pr : Option Int) (j : Int)
    (hempty : state.timestamps = []) (h9 : 9 ≤ dh) (h17 : dh ≤ 17) :
    get_next_run_time state now dh pr j
      = ⟨now.day + 1, dh, 0, 0, now.micro⟩ ∧
    9 ≤ (get_next_run_time state now dh pr j).hour ∧
    (get_next_run_time state now dh pr j).hour ≤ 17 := by
  simp [get_next_run_time, hempty]
  exact ⟨h9, h17⟩

/-- Witness for C8 at a concrete empty state, time and drawn hour. -/
theorem C8_witness :
    get_next_run_time ⟨[], []⟩ ⟨100, 23, 45, 10, 7⟩ 9 none 0
      = ⟨101, 9, 0, 0, 7⟩ :=
  (C8_next_run_time_empty_state ⟨[], []⟩ ⟨100, 23, 45, 10, 7⟩ 9 none 0
    rfl (by decide) (by decide)).1

/-- C9: `process_orders` caps a run at the first ten valid orders: the
processed batch is exactly the first `min(10, count)` entries of the
valid-order list, hence never more than ten orders. -/
theorem C9_process_orders_cap (orders : List OSum) :
    process_orders_selection orders
      = (orders.filter (fun o => o.valid)).take 10 ∧
    (process_orders_selection orders).length
      = min 10 (orders.filter (fun o => o.valid)).length ∧
    (process_orders_selection orders).length ≤ 10 := by
  have h1 : process_orders_selection orders
      = (orders.filter (fun o => o.valid)).take 10 := by
    unfold process_orders_selection
    rw [← List.take_take, List.take_length]
  refine ⟨h1, ?_, ?_⟩ <;> rw [h1]
  · exact List.length_take 10 _
  · rw [List.length_take]
    omega

/-- C10: `Scheduler.update_success` preserves the invariant that the
histogram total equals the number of recorded timestamps, incrementing
exactly one hour bucket and appending exactly one timestamp. -/
theorem C10_update_success_invariant (s : SchedState) (t : DT)
    (h : sumHours s.hours = s.timestamps.length) :
    sumHours (update_success s t).hours
      = (update_success s t).timestamps.length ∧
    sumHours (update_success s t).hours = sumHours s.hours + 1 ∧
    (update_success s t).timestamps.length = s.timestamps.length + 1 := by
  simp [update_success, sumHours_bumpHour, h]

/-- Witness for C10 starting from the fresh (reset) scheduler state. -/
theorem C10_witness :
    sumHours (update_success ⟨[], []⟩ ⟨0, 14, 30, 0, 0⟩).hours
      = (update_success ⟨[], []⟩ ⟨0, 14, 30, 0, 0⟩).timestamps.length :=
  (C10_update_success_invariant ⟨[], []⟩ ⟨0, 14, 30, 0, 0⟩ rfl).1

/-- C6: the dialog classifier is computed on the lowercased dialog text;
any text containing the ineligibility phrase classifies as `failure`
(failure indicators are checked first, so they take precedence); text
containing the request phrase with no failure indicator matched
classifies as `success`; text matching neither keyword set with fewer
than two structural error markers classifies as `unknown`. -/
theorem C6_check_dialog_type (text : String) (c1 c2 c3 : Bool) :
    (containsStr "not eligible for price adjustment" (lowerStr text) = true →
      check_dialog_type text c1 c2 c3 = "failure") ∧
    (containsStr "request a price adjustment" (lowerStr text) = true →
      failure_indicators.any (matchesIndicator (lowerStr text)) = false →
      check_dialog_type text c1 c2 c3 = "success") ∧
    (failure_indicators.any (matchesIndicator (lowerStr text)) = false →
      success_indicators.any (matchesIndicator (lowerStr text)) = false →
      ((if c1 then 1 else 0) + (if c2 then 1 else 0)
        + (if c3 then 1 else 0) : Nat) < 2 →
      check_dialog_type text c1 c2 c3 = "unknown") := by
  refine ⟨fun h => ?_, fun h hf => ?_, fun hf hs hc => ?_⟩
  · have : failure_indicators.any (matchesIndicator (lowerStr text)) = true := by
      simp only [failure_indicators, List.any_cons, matchesIndicator,
        List.any_nil, Bool.or_eq_true]
      tauto
    simp [check_dialog_type, this]
  · have hsucc : success_indicators.any (matchesIndicator (lowerStr text)) = true := by
      simp only [success_indicators, List.any_cons, matchesIndicator,
        List.any_nil, Bool.or_eq_true]
      tauto
    simp [check_dialog_type, hf, hsucc]
  · simp [check_dialog_type, hf, hs]
    omega

/-- Witness for C6: the three branches hit at concrete dialog texts. -/
theorem C6_witness :
    check_dialog_type "Sorry, this item is not eligible for price adjustment"
      false false false = "failure" ∧
    check_dialog_type "Request a price adjustment" false false false
      = "success" ∧
    check_dialog_type "hello world" true false false = "unknown" :=
  ⟨(C6_check_dialog_type
      "Sorry, this item is not eligible for price adjustment"
      false false false).1 (by decide),
   (C6_check_dialog_type "Request a price adjustment" false false false).2.1
      (by decide) (by decide),
   (C6_check_dialog_type "hello world" true false false).2.2
      (by decide) (by decide) (by decide)⟩

/-- C3: evaluation of `parse_order_date` on each supported branch:
month-name dates parse (`"Jan 5 2024"` → 2024-01-05, with and without the
comma), slash dates are day-first where that succeeds and month-first
otherwise, unparsable text yields `None` — but a dash numeric date such as
`"05-01-2024"` yields `None` as well: the dash regex matches, yet none of
the four `strptime` formats accepts dashes, so the dash branch of the
claim fails on the code. -/
theorem C3_parse_order_date_eval :
    parse_order_date "Jan 5 2024" = some ⟨2024, 1, 5⟩ ∧
    parse_order_date "Jan 5, 2024" = some ⟨2024, 1, 5⟩ ∧
    parse_order_date "05/01/2024" = some ⟨2024, 1, 5⟩ ∧
    parse_order_date "01/13/2024" = some ⟨2024, 1, 13⟩ ∧
    parse_order_date "no date here" = none ∧
    parse_order_date "05-01-2024" = none := by
  decide

/-- Helper: every record persisted during a single attempt satisfies the
success/status implication (the snapshot saved on a successful adjustment
has both fields set consistently before `save_order_data` runs). -/
lemma stepAttempt_persisted_ok (out : AOut) (r : ORec) :
    ∀ p ∈ (stepAttempt out r).persisted,
      p.adjustment_success = some true → p.adjustment_status = some "success" := by
  cases out with
  | noDetails => simp [stepAttempt]
  | excTracking m => simp [stepAttempt]
  | adjSuccess u t =>
    cases u <;> cases t <;> simp [stepAttempt, resetFields, applyExc]
  | adjNotAvailable t =>
    cases t <;> simp [stepAttempt, resetFields, applyExc]
  | adjIndeterminate t =>
    cases t <;> simp [stepAttempt, resetFields, applyExc]

/-- Helper: the attempt loop only ever persists records satisfying the
success/status implication. -/
lemma poLoop_persisted_ok (env : Nat → AOut) (k : Nat) :
    ∀ (r : ORec) (ps : List ORec),
      (∀ p ∈ ps, p.adjustment_success = some true →
        p.adjustment_status = some "success") →
      ∀ p ∈ (poLoop env k r ps).persisted,
        p.adjustment_success = some true →
        p.adjustment_status = some "success" := by
  induction k with
  | zero =>
    intro r ps hps
    simpa [poLoop] using hps
  | succ k ih =>
    intro r ps hps p hp
    simp only [poLoop] at hp
    split at hp
    · rcases List.mem_append.mp hp with h | h
      · exact hps p h
      · exact stepAttempt_persisted_ok _ _ p h
    · refine ih _ _ ?_ p hp
      intro q hq
      rcases List.mem_append.mp hq with h | h
      · exact hps q h
      · exact stepAttempt_persisted_ok _ _ q h

/-- C1: in every record persisted by `process_order` (any initial record,
any sequence of attempt outcomes), `adjustment_success == True` implies
`adjustment_status == "success"`. -/
theorem C1_success_implies_status (r : ORec) (env : Nat → AOut) (p : ORec)
    (hp : p ∈ (process_order r env).persisted)
    (hs : p.adjustment_success = some true) :
    p.adjustment_status = some "success" :=
  poLoop_persisted_ok env 5 { r with attempts := 0 } [] (by simp) p hp hs

/-- Witness for C1: the record persisted on a first-attempt success. -/
theorem C1_witness :
    ({ id := "PO-10", attempts := 1, adjustment_attempted := some true,
       adjustment_success := some true, adjustment_status := some "success",
       last_error := some "" } : ORec).adjustment_status = some "success" :=
  C1_success_implies_status (freshORec "PO-10")
    (fun _ => AOut.adjSuccess none none)
    { id := "PO-10", attempts := 1, adjustment_attempted := some true,
      adjustment_success := some true, adjustment_status := some "success",
      last_error := some "" }
    (by decide) rfl

/-- Helper: when the detail page never loads, every iteration hits the
bare `continue` and only the attempt counter changes. -/
lemma poLoop_noDetails (k : Nat) :
    ∀ (r : ORec) (ps : List ORec),
      poLoop (fun _ => AOut.noDetails) k r ps
        = ⟨{ r with attempts := r.attempts + k }, ps, none⟩ := by
  induction k with
  | zero => intro r ps; simp [poLoop]
  | succ k ih =>
    intro r ps
    simp only [poLoop, stepAttempt]
    rw [ih]
    cases r
    simp
    omega

/-- C2 (counterexample): for an order whose detail page times out on every
attempt, `process_order` ends with `attempts == 5` but its
`adjustment_status` is never assigned — in particular it is not
`"failed"`, contrary to the claim. -/
theorem C2_counterexample :
    (process_order (freshORec "PO-20")
      (fun _ => AOut.noDetails)).record.attempts = 5 ∧
    (process_order (freshORec "PO-20")
      (fun _ => AOut.noDetails)).record.adjustment_status ≠ some "failed" := by
  decide

/-- C2 (amended): an order whose detail-page navigation fails on every
attempt terminates with `attempts == 5` and returns `False`, but the
`continue` path sets no record fields: `adjustment_status` keeps its
initial value (absent on a fresh record) and nothing is persisted. -/
theorem C2_amended_no_details (r : ORec) (env : Nat → AOut)
    (henv : ∀ i, env i = AOut.noDetails) :
    (process_order r env).record.adjustment_status = r.adjustment_status ∧
    (process_order r env).record.attempts = 5 ∧
    (process_order r env).returned = false ∧
    (process_order r env).persisted = [] := by
  have he : env = fun _ => AOut.noDetails := funext henv
  subst he
  simp [process_order, poLoop_noDetails]

/-- Witness for C2's amended claim at a fresh order record. -/
theorem C2_witness :
    (process_order (freshORec "PO-21")
      (fun _ => AOut.noDetails)).record.adjustment_status = none ∧
    (process_order (freshORec "PO-21")
      (fun _ => AOut.noDetails)).record.attempts = 5 := by
  have h := C2_amended_no_details (freshORec "PO-21")
    (fun _ => AOut.noDetails) (fun _ => rfl)
  exact ⟨h.1, h.2.1⟩

/-- Helper: one attempt never changes the attempt counter (only the loop
header increments it). -/
lemma stepAttempt_attempts (out : AOut) (r : ORec) :
    (stepAttempt out r).record.attempts = r.attempts := by
  cases out with
  | noDetails => simp [stepAttempt]
  | excTracking m => simp [stepAttempt, applyExc]
  | adjSuccess u t =>
    cases u <;> cases t <;> simp [stepAttempt, resetFields, applyExc]
  | adjNotAvailable t =>
    cases t <;> simp [stepAttempt, resetFields, applyExc]
  | adjIndeterminate t =>
    cases t <;> simp [stepAttempt, resetFields, applyExc]

/-- Helper: the loop makes at most `k` further attempts. -/
lemma poLoop_attempts_le (env : Nat → AOut) (k : Nat) :
    ∀ (r : ORec) (ps : List ORec),
      (poLoop env k r ps).record.attempts ≤ r.attempts + k := by
  induction k with
  | zero => intro r ps; simp [poLoop]
  | succ k ih =>
    intro r ps
    simp only [poLoop]
    split
    · rename_i s b heq
      rw [stepAttempt_attempts]
      show r.attempts + 1 ≤ r.attempts + (k + 1)
      omega
    · calc (poLoop env k _ _).record.attempts
          ≤ (stepAttempt (env (r.attempts + 1))
              { r with attempts := r.attempts + 1 }).record.attempts + k := ih _ _
        _ ≤ r.attempts + (k + 1) := by
            rw [stepAttempt_attempts]
            show r.attempts + 1 + k ≤ r.attempts + (k + 1)
            omega

/-- Helper: the one-step unfolding of the attempt loop. -/
lemma poLoop_succ (env : Nat → AOut) (k : Nat) (r : ORec) (ps : List ORec) :
    poLoop env (k + 1) r ps =
      (let r1 : ORec := { r with attempts := r.attempts + 1 }
       let s := stepAttempt (env r1.attempts) r1
       match s.result with
       | some b => ⟨s.record, ps ++ s.persisted, some b⟩
       | none => poLoop env k s.record (ps ++ s.persisted)) := rfl

/-- Helper: with every attempt indeterminate (adjustment button/dialog
never decisive), the loop exhausts its budget, leaving the failed status
and retry bookkeeping on the record. -/
lemma poLoop_indet (k : Nat) :
    ∀ (r : ORec) (ps : List ORec),
      (poLoop (fun _ => AOut.adjIndeterminate none) (k + 1) r ps).record
        = ⟨r.id, r.attempts + (k + 1), some true, some false, some "failed",
           some "Price adjustment failed"⟩ ∧
      (poLoop (fun _ => AOut.adjIndeterminate none) (k + 1) r ps).result
        = none := by
  induction k with
  | zero =>
    intro r ps
    cases r
    simp [poLoop, stepAttempt, resetFields]
  | succ k ih =>
    intro r ps
    obtain ⟨i, a, aa, as, st, le⟩ := r
    rw [poLoop_succ]
    simp only [stepAttempt, resetFields]
    refine ⟨?_, (ih _ _).2⟩
    rw [(ih _ _).1]
    simp
    omega

/-- Helper: if no attempt outcome is a confirmed successful adjustment,
the loop's `result` never becomes `True`. -/
lemma poLoop_no_clean_success (env : Nat → AOut)
    (h : ∀ i, (env i).isCleanSuccess = false) (k : Nat) :
    ∀ (r : ORec) (ps : List ORec),
      (poLoop env k r ps).result ≠ some true := by
  induction k with
  | zero => intro r ps; simp [poLoop]
  | succ k ih =>
    intro r ps
    simp only [poLoop]
    cases hout : env (r.attempts + 1) with
    | noDetails => simpa [stepAttempt, hout] using ih _ _
    | excTracking m => simpa [stepAttempt, hout] using ih _ _
    | adjSuccess u t =>
      have hc := h (r.attempts + 1)
      rw [hout] at hc
      cases u with
      | none => simp [AOut.isCleanSuccess] at hc
      | some m => simpa [stepAttempt, hout] using ih _ _
    | adjNotAvailable t =>
      cases t <;> simp [stepAttempt, hout]
    | adjIndeterminate t =>
      cases t <;> simpa [stepAttempt, hout] using ih _ _

/-- C5: `process_order` makes at most 5 attempts; a decisive first attempt
terminates immediately (not-available gives `adjustment_status ==
"not_available"` with `attempts == 1` and returns `False`; success returns
`True` with `attempts == 1`); exhausting all attempts on indecisive
outcomes yields `attempts == 5` with the distinct status `"failed"` and
returns `False`; and the boolean returned is `True` only when some attempt
confirmed success. -/
theorem C5_attempt_policy (r : ORec) (env : Nat → AOut) :
    (process_order r env).record.attempts ≤ 5 ∧
    (env 1 = AOut.adjNotAvailable none →
      (process_order r env).record.adjustment_status = some "not_available" ∧
      (process_order r env).record.attempts = 1 ∧
      (process_order r env).returned = false) ∧
    (env 1 = AOut.adjSuccess none none →
      (process_order r env).record.adjustment_status = some "success" ∧
      (process_order r env).record.attempts = 1 ∧
      (process_order r env).returned = true) ∧
    ((∀ i, env i = AOut.adjIndeterminate none) →
      (process_order r env).record.adjustment_status = some "failed" ∧
      (process_order r env).record.attempts = 5 ∧
      (process_order r env).returned = false) ∧
    ((∀ i, (env i).isCleanSuccess = false) →
      (process_order r env).returned = false) := by
  refine ⟨?_, fun h1 => ?_, fun h1 => ?_, fun hall => ?_, fun hns => ?_⟩
  · have := poLoop_attempts_le env 5 { r with attempts := 0 } []
    simpa [process_order] using this
  · have h5 : (5 : Nat) = 4 + 1 := rfl
    simp [process_order, h5, poLoop, stepAttempt, h1, resetFields]
  · have h5 : (5 : Nat) = 4 + 1 := rfl
    simp [process_order, h5, poLoop, stepAttempt, h1, resetFields]
  · have he : env = fun _ => AOut.adjIndeterminate none := funext hall
    subst he
    have h := poLoop_indet 4 { r with attempts := 0 } []
    have hrec : (process_order r (fun _ => AOut.adjIndeterminate none)).record
        = (poLoop (fun _ => AOut.adjIndeterminate none) (4 + 1)
            { r with attempts := 0 } []).record := rfl
    have hres : (process_order r (fun _ => AOut.adjIndeterminate none)).returned
        = ((poLoop (fun _ => AOut.adjIndeterminate none) (4 + 1)
            { r with attempts := 0 } []).result == some true) := rfl
    rw [hrec, hres, h.1, h.2]
    simp
  · have := poLoop_no_clean_success env hns 5 { r with attempts := 0 } []
    show ((poLoop env 5 { r with attempts := 0 } []).result == some true) = false
    exact beq_eq_false_iff_ne.mpr this

/-- Witness for C5: concrete first-attempt-decisive and all-indeterminate
environments. -/
theorem C5_witness :
    (process_order (freshORec "PO-30")
      (fun _ => AOut.adjNotAvailable none)).record.adjustment_status
        = some "not_available" ∧
    (process_order (freshORec "PO-30")
      (fun _ => AOut.adjNotAvailable none)).record.attempts = 1 ∧
    (process_order (freshORec "PO-31")
      (fun _ => AOut.adjIndeterminate none)).record.attempts = 5 :=
  ⟨((C5_attempt_policy (freshORec "PO-30")
      (fun _ => AOut.adjNotAvailable none)).2.1 rfl).1,
   ((C5_attempt_policy (freshORec "PO-30")
      (fun _ => AOut.adjNotAvailable none)).2.1 rfl).2.1,
   ((C5_attempt_policy (freshORec "PO-31")
      (fun _ => AOut.adjIndeterminate none)).2.2.2.1 (fun _ => rfl)).2.1⟩

/-- Helper: filtering with a predicate that holds on every candidate the
search predicate accepts does not change the first hit. -/
lemma find?_filter_of_imp {α : Type} (l : List α) (pk pf : α → Bool)
    (h : ∀ q, pk q = true → pf q = true) :
    (l.filter pf).find? pk = l.find? pk := by
  induction l with
  | nil => rfl
  | cons q rest ih =>
    rw [List.filter_cons]
    cases hq : pk q with
    | true =>
      have hpf := h q hq
      simp [hpf, hq]
    | false =>
      cases hpf : pf q <;> simp [hpf, hq, ih]

/-- Helper: `updEntry` preserves keys, so searching a key over the updated
entries finds the same position as over the originals. -/
lemma find?_map_updEntry (old new : List (String × String)) (k : String) :
    (old.map (updEntry new)).find? (fun q => q.1 == k)
      = (old.find? (fun q => q.1 == k)).map (updEntry new) := by
  induction old with
  | nil => rfl
  | cons o rest ih =>
    have hfst : (updEntry new o).1 = o.1 := by
      unfold updEntry
      cases new.find? (fun q => q.1 == o.1) <;> rfl
    rw [List.map_cons]
    cases h : o.1 == k with
    | true => simp [List.find?, hfst, h]
    | false => simp [List.find?, hfst, h, ih]

/-- Helper: the value at a key after `dict.update` is the value from the
new dict when present, else the old value. -/
lemma valAt_dictUpdate (old new : List (String × String)) (k : String) :
    valAt (dictUpdate old new) k
      = match new.find? (fun q => q.1 == k) with
        | some q => some q.2
        | none => valAt old k := by
  unfold valAt dictUpdate
  rw [List.find?_append, find?_map_updEntry]
  cases h1 : old.find? (fun q => q.1 == k) with
  | some e =>
    have he := List.find?_some h1
    have he' : e.1 = k := by simpa using he
    rw [Option.map_some', Option.or_some, Option.map_some']
    unfold updEntry
    rw [he']
    cases hn : new.find? (fun q => q.1 == k) <;> simp
  | none =>
    have hany : old.any (fun kv => kv.1 == k) = false := by
      rw [List.any_eq_false]
      intro kv hkv
      exact List.find?_eq_none.mp h1 kv hkv
    rw [Option.map_none', Option.none_or,
      find?_filter_of_imp _ _ _ (fun q hq => by
        have hqk : q.1 = k := by simpa using hq
        rw [hqk, hany]
        rfl)]
    cases hn : new.find? (fun q => q.1 == k) <;> rfl

/-- Helper: updating the first id-match in place does not change the list
of ids in the store. -/
lemma updateFirst_map_id (store : List JRec) (order : JRec) :
    (updateFirst store order).map (fun o => o.id)
      = store.map (fun o => o.id) := by
  induction store with
  | nil => rfl
  | cons o rest ih =>
    by_cases h : (o.id == order.id) = true
    · simp [updateFirst, h]
    · simp [updateFirst, h, ih]

/-- Helper: the per-id record count only depends on the stored ids. -/
lemma countId_eq_map (l : List JRec) (i : String) :
    countId l i = ((l.map (fun o => o.id)).filter (fun s => s == i)).length := by
  induction l with
  | nil => rfl
  | cons o rest ih =>
    by_cases h : (o.id == i) = true <;>
      simp [countId, List.filter_cons, h, ih, countId] at ih ⊢ <;> omega

/-- Helper: the record count distributes over store concatenation. -/
lemma countId_append (l1 l2 : List JRec) (i : String) :
    countId (l1 ++ l2) i = countId l1 i + countId l2 i := by
  simp [countId, List.filter_append]

/-- Helper: a store whose `any`-by-id probe succeeds holds at least one
record with that id. -/
lemma countId_pos_of_any (store : List JRec) (i : String)
    (h : store.any (fun o => o.id == i) = true) : 1 ≤ countId store i := by
  obtain ⟨o, ho, hid⟩ := List.any_eq_true.mp h
  exact List.length_pos_of_mem (List.mem_filter.mpr ⟨ho, hid⟩)

/-- Helper: a store whose `any`-by-id probe fails holds no record with
that id. -/
lemma countId_zero_of_not_any (store : List JRec) (i : String)
    (h : store.any (fun o => o.id == i) = false) : countId store i = 0 := by
  unfold countId
  rw [List.filter_eq_nil_iff.mpr (by
    intro o ho
    exact fun hid => (List.any_eq_false.mp h o ho) hid)]
  rfl

/-- Helper: when the store holds the target id at most once, any record of
the updated store still carrying that id is the in-place update of a
stored record with that id. -/
lemma updateFirst_mem (store : List JRec) (order : JRec)
    (h : countId store order.id ≤ 1) :
    ∀ rec ∈ updateFirst store order, rec.id = order.id →
      ∃ e, e ∈ store ∧ e.id = order.id ∧
        rec = ⟨e.id, dictUpdate e.fields order.fields⟩ := by
  induction store with
  | nil => simp [updateFirst]
  | cons o rest ih =>
    intro rec hrec hid
    by_cases ho : (o.id == order.id) = true
    · rw [updateFirst, if_pos ho] at hrec
      rcases List.mem_cons.mp hrec with h1 | h1
      · exact ⟨o, List.mem_cons_self o rest, by simpa using ho, h1⟩
      · exfalso
        have hcnt2 : 2 ≤ countId (o :: rest) order.id := by
          have hr : 1 ≤ countId rest order.id :=
            List.length_pos_of_mem (List.mem_filter.mpr ⟨h1, by simpa using hid⟩)
          have : countId (o :: rest) order.id = countId rest order.id + 1 := by
            simp [countId, List.filter_cons, ho]
          omega
        omega
    · rw [updateFirst, if_neg (by simpa using ho)] at hrec
      have hcnt : countId (o :: rest) order.id = countId rest order.id := by
        simp [countId, List.filter_cons, ho]
      rcases List.mem_cons.mp hrec with h1 | h1
      · exfalso
        rw [h1] at hid
        exact ho (by simpa using hid)
      · obtain ⟨e, he, heid, heq⟩ := ih (by omega) rec h1 hid
        exact ⟨e, List.mem_cons_of_mem o he, heid, heq⟩

/-- C7 (counterexample): on a store already holding two records with the
same id (a state the claim quantifies over), the upsert updates only the
first match, so two records with that id remain — not exactly one. -/
theorem C7_counterexample :
    countId (save_order_data [⟨"A", []⟩, ⟨"A", []⟩] ⟨"A", [("x", "1")]⟩) "A"
      = 2 ∧
    countId (save_order_data [⟨"A", []⟩, ⟨"A", []⟩] ⟨"A", [("x", "1")]⟩) "A"
      ≠ 1 := by
  decide

/-- C7 (amended): on every store holding at most one record with the
order's id — which is every store reachable by the upsert alone — saving
leaves exactly one record with that id, reflecting the latest field
values; other ids are untouched; a new id appends exactly one record and
an existing id keeps the store's length. -/
theorem C7_amended_upsert (store : List JRec) (order : JRec)
    (h : countId store order.id ≤ 1) :
    countId (save_order_data store order) order.id = 1 ∧
    (∀ j, j ≠ order.id →
      countId (save_order_data store order) j = countId store j) ∧
    (countId store order.id = 0 →
      save_order_data store order = store ++ [order]) ∧
    (countId store order.id = 1 →
      (save_order_data store order).length = store.length) ∧
    (∀ rec ∈ save_order_data store order, rec.id = order.id →
      ∀ k v, getField order k = some v → getField rec k = some v) := by
  cases hany : store.any (fun o => o.id == order.id) with
  | false =>
    have h0 : countId store order.id = 0 := countId_zero_of_not_any _ _ hany
    have hsave : save_order_data store order = store ++ [order] := by
      simp [save_order_data, hany]
    refine ⟨?_, ?_, fun _ => hsave, ?_, ?_⟩
    · rw [hsave, countId_append, h0]
      simp [countId]
    · intro j hj
      rw [hsave, countId_append]
      have hz : countId [order] j = 0 := by
        simp [countId, List.filter_cons, beq_eq_false_iff_ne.mpr (Ne.symm hj)]
      omega
    · intro h1
      omega
    · intro rec hrec hid k v hv
      rw [hsave] at hrec
      rcases List.mem_append.mp hrec with hm | hm
      · exact absurd (by simpa using hid) (List.any_eq_false.mp hany rec hm)
      · have hro : rec = order := by simpa using hm
        rw [hro]
        exact hv
  | true =>
    have h1 : countId store order.id = 1 :=
      le_antisymm h (countId_pos_of_any _ _ hany)
    have hsave : save_order_data store order = updateFirst store order := by
      simp [save_order_data, hany]
    have hcnt : ∀ j, countId (updateFirst store order) j = countId store j := by
      intro j
      rw [countId_eq_map, countId_eq_map, updateFirst_map_id]
    refine ⟨?_, ?_, ?_, ?_, ?_⟩
    · rw [hsave, hcnt, h1]
    · intro j hj
      rw [hsave, hcnt]
    · intro h0
      omega
    · intro _
      rw [hsave]
      have hlen := congrArg List.length (updateFirst_map_id store order)
      simpa using hlen
    · intro rec hrec hid k v hv
      rw [hsave] at hrec
      obtain ⟨e, he, heid, heq⟩ := updateFirst_mem store order h rec hrec hid
      rw [heq]
      show valAt (dictUpdate e.fields order.fields) k = some v
      rw [valAt_dictUpdate]
      unfold getField valAt at hv
      cases hn : order.fields.find? (fun q => q.1 == k) with
      | some q =>
        rw [hn] at hv
        simpa using hv
      | none =>
        rw [hn] at hv
        simp at hv

/-- Witness for C7's amended claim: upserting over a one-record store with
the same id. -/
theorem C7_witness :
    countId (save_order_data [⟨"A", [("x", "0")]⟩]
      (⟨"A", [("x", "1")]⟩ : JRec)) (⟨"A", [("x", "1")]⟩ : JRec).id = 1 :=
  (C7_amended_upsert [⟨"A", [("x", "0")]⟩] ⟨"A", [("x", "1")]⟩ (by decide)).1
